import Mathlib

/-!
# Verification of `sqlalchemy_extensions` session operations

Shallow embedding of the key-resolution and idempotent-insert logic of
`sqlalchemy_extensions/orm/session_extension.py` (class `SessionExtensions`)
and the column metadata of `sqlalchemy_extensions/orm/decl_base.py`.

Modelling conventions:
* A column value is `Option Val` (`none` models SQL `NULL` / Python `None`).
* An entity instance is an association list from column names to values
  (`DeclarativeBase` instances hold their mapped column attributes; an
  attribute that was never set reads as `None`).
* The database visible to one session is a list of rows (entities); pending
  `add`/`add_all` objects are visible to later queries in the same session
  (SQLAlchemy autoflush).
* Each session operation returns `(Except Err result, database, effect list)`
  where the effect list records storage interactions (`query`, `add`, `merge`,
  `commit`, `flush`, `refresh`) in order.
* `tuple_(...).in_(...)` filters use SQL three-valued comparison: a tuple with a
  `NULL` component never matches (`sqlTupleEq`), while `_eq_filter` produces
  `col = v` / `col IS NULL` conditions, i.e. plain `Option` equality.
-/

abbrev Val := Int

/-- An entity instance: association list of column name to column value.
`none` models Python `None` / SQL `NULL`. -/
abbrev Entity := List (String × Option Val)

/-- `getattr(obj, col)`: the current value of a mapped column attribute;
an attribute that was never assigned reads as `None`. -/
def getattr (e : Entity) (c : String) : Option Val :=
  match e.find? (fun p => p.1 == c) with
  | some p => p.2
  | none => none

/-- `setattr(obj, col, v)`: assign a mapped column attribute in place. -/
def setattr : Entity → String → Option Val → Entity
  | [], c, v => [(c, v)]
  | (c', v') :: rest, c, v =>
    if c' = c then (c, v) :: rest else (c', v') :: setattr rest c v

/-- The per-type column metadata computed by `DeclarativeBase._make_columns`:
`_key_columns` (primary-key columns) and `_log_columns` (columns marked
`logical_key=True`). -/
structure EntityType where
  key_columns : List String
  log_columns : List String

/-- `obj._key_vals`: ordered tuple of current primary-key column values. -/
def keyVals (T : EntityType) (e : Entity) : List (Option Val) :=
  T.key_columns.map (getattr e)

/-- `obj._log_vals`: ordered tuple of current logical-key column values. -/
def logVals (T : EntityType) (e : Entity) : List (Option Val) :=
  T.log_columns.map (getattr e)

/-- SQL comparison of two value tuples as compiled from
`tuple_(*cols).in_([...])`: equal length, componentwise equal, and a `NULL`
component never matches anything (three-valued logic). -/
def sqlTupleEq (xs ys : List (Option Val)) : Bool :=
  xs.length == ys.length &&
    (xs.zip ys).all (fun p =>
      match p with
      | (some a, some b) => a == b
      | _ => false)

/-- Exceptions raised by the session operations. -/
inductive Err where
  /-- `NoLogicalKeyException`: the type declares no `logical_key` column. -/
  | noLogicalKey
  /-- `Exception("Error! attach_keys received an object that already has ids ...")`. -/
  | alreadyKeyed
  /-- `MultipleResultsFound` from `.one()` / `.one_or_none()`. -/
  | multipleResults
  /-- `StopIteration` from `next(iter(objects))` on an empty iterable. -/
  | stopIteration
  deriving DecidableEq, Repr

/-- Storage interactions performed by an operation, in order. -/
inductive Eff where
  /-- a SELECT executed against storage -/
  | query
  /-- `Session.add` / `Session.add_all` of pending new rows -/
  | add
  /-- `Session.merge` -/
  | merge
  /-- `Session.commit` -/
  | commit
  /-- `Session.flush` -/
  | flush
  /-- `Session.refresh` of one instance -/
  | refresh
  deriving DecidableEq, Repr

/-- The rows of the one table the operations under verification touch. -/
abbrev DB := List Entity

/-- `Result.one_or_none()`: `None` on zero rows, the row on exactly one,
`MultipleResultsFound` otherwise.  (It does *not* raise `NoResultFound`.) -/
def one_or_none (rows : List Entity) : Except Err (Option Entity) :=
  match rows with
  | [] => .ok none
  | [r] => .ok (some r)
  | _ => .error .multipleResults

/-- Effects of `SessionExtensions._commit_flush_refresh(commit, flush, refresh,
instances)` where `ninst` is the number of refreshed instances. -/
def cfrEffs (commit flush refresh : Bool) (ninst : Nat) : List Eff :=
  (if commit then [.commit] else []) ++
    (if flush then [.flush] else []) ++
    (if refresh then List.replicate ninst .refresh else [])

/-- Lookup in a Python dict modelled as an association list. -/
def lookupA (m : List (List (Option Val) × List (Option Val)))
    (k : List (Option Val)) : Option (List (Option Val)) :=
  match m.find? (fun p => p.1 == k) with
  | some p => some p.2
  | none => none

/-- `d[k] = v` on a Python dict modelled as an association list:
replace an existing binding, else append. -/
def updateA : List (List (Option Val) × List (Option Val)) →
    List (Option Val) → List (Option Val) →
    List (List (Option Val) × List (Option Val))
  | [], k, v => [(k, v)]
  | (k', v') :: rest, k, v =>
    if k' = k then (k, v) :: rest else (k', v') :: updateA rest k v

/-- The dict comprehension
`{tuple(x[nkeys:]): x[:nkeys] for x in db_ids_log_vals}` of
`find_keys_all` / `linsert_ignore_all`: map each returned row's logical-value
tuple to its primary-key tuple, later rows overwriting earlier ones. -/
def buildDict (T : EntityType) (rows : List Entity) :
    List (List (Option Val) × List (Option Val)) :=
  rows.foldl (fun m r => updateA m (logVals T r) (keyVals T r)) []

/-- The loop `for kc, lv in zip(o._key_columns, logvals_to_keyvals[o._log_vals]):
setattr(o, kc.name, lv)` of `linsert_ignore_all`: overwrite the entity's
primary-key columns with the resolved stored values. -/
def writeKeys (T : EntityType) (e : Entity) (kv : List (Option Val)) : Entity :=
  (T.key_columns.zip kv).foldl (fun acc p => setattr acc p.1 p.2) e

/-- `SessionExtensions.find_keys` (session_extension.py:127-157): query the
primary-key values from the logical-key values.  Raises `NoLogicalKeyException`
before any query when the type has no logical-key columns; otherwise executes
`select(*_key_columns).where(tuple_(*_log_columns).in_([logical_values]))` and
applies `.one_or_none()`.  (The Python code unwraps a single-column result to a
scalar, `v[0] if len(v) == 1 else v`; the model keeps the tuple — `attach_keys`
re-wraps scalars into a list, so the composition is unchanged.) -/
def find_keys (T : EntityType) (lv : List (Option Val)) (db : DB) :
    Except Err (Option (List (Option Val))) × DB × List Eff :=
  if T.log_columns = [] then (.error .noLogicalKey, db, [])
  else
    let matched := db.filter (fun r => sqlTupleEq (logVals T r) lv)
    match one_or_none matched with
    | .error err => (.error err, db, [.query])
    | .ok none => (.ok none, db, [.query])
    | .ok (some r) => (.ok (some (keyVals T r)), db, [.query])

/-- `SessionExtensions.find_keys_all` (session_extension.py:159-186): one
`IN`-style batched query `select(*_key_columns, *_log_columns).filter(
tuple_(*_log_columns).in_(logical_values))`, a dict from logical-value tuple to
primary-key tuple, and a lookup per input in input order (`None` for misses). -/
def find_keys_all (T : EntityType) (lvs : List (List (Option Val))) (db : DB) :
    Except Err (List (Option (List (Option Val)))) × DB × List Eff :=
  if T.log_columns = [] then (.error .noLogicalKey, db, [])
  else
    let filtered := db.filter (fun r => lvs.any (fun t => sqlTupleEq (logVals T r) t))
    let dict := buildDict T filtered
    (.ok (lvs.map (fun lv => lookupA dict lv)), db, [.query])

/-- The loop of `SessionExtensions.attach_keys` (session_extension.py:54-64):
`for col, value in zip(obj._key_columns, oids)`, raising when
`allow_id_overwrite` is false and the column already holds a non-`None` value,
else writing every non-`None` resolved value and recording whether one was
attached.  The entity component of the result reflects the writes performed
before a raise (the Python object is mutated in place). -/
def attachLoop (allow : Bool) :
    List (String × Option Val) → Entity → Bool → Entity × Bool × Option Err
  | [], e, att => (e, att, none)
  | (c, v) :: rest, e, att =>
    if !allow && (getattr e c).isSome then (e, att, some .alreadyKeyed)
    else if v.isSome then attachLoop allow rest (setattr e c v) true
    else attachLoop allow rest e att

/-- `SessionExtensions.attach_keys` (session_extension.py:33-65): resolve the
primary key from the logical values via `find_keys` and write it onto the
entity.  `oids` is `[None]` when `find_keys` found nothing (Python: `None` is
not a `Sequence`, so it is wrapped).  NOTE the source returns the *pair*
`(obj, attached_key)` even though it is annotated `-> bool`. -/
def attach_keys (T : EntityType) (e : Entity) (allow_id_overwrite : Bool)
    (db : DB) : Except Err (Entity × Bool) × DB × List Eff :=
  if T.log_columns = [] then (.error .noLogicalKey, db, [])
  else
    match find_keys T (logVals T e) db with
    | (.error err, db', effs) => (.error err, db', effs)
    | (.ok v, db', effs) =>
      let oids : List (Option Val) :=
        match v with
        | none => [none]
        | some kvs => kvs
      match attachLoop allow_id_overwrite (T.key_columns.zip oids) e false with
      | (e', att, none) => (.ok (e', att), db', effs)
      | (_, _, some err) => (.error err, db', effs)

/-- The inner loop of `SessionExtensions.attach_keys_all`
(session_extension.py:90-94): write every non-`None` resolved key value; no
`allow_id_overwrite` guard is performed (the parameter is never read). -/
def attachValsLoop : List (String × Option Val) → Entity → Bool → Entity × Bool
  | [], e, att => (e, att)
  | (c, v) :: rest, e, att =>
    if v.isSome then attachValsLoop rest (setattr e c v) true
    else attachValsLoop rest e att

/-- `SessionExtensions.attach_keys_all` (session_extension.py:67-96): batch
form of `attach_keys` built on `find_keys_all`.  Returns the updated entities
(mutated in place in Python) with the per-entity `attached` flags. -/
def attach_keys_all (T : EntityType) (objects : List Entity)
    (allow_id_overwrite : Bool) (db : DB) :
    Except Err (List Entity × List Bool) × DB × List Eff :=
  match objects with
  | [] => (.error .stopIteration, db, [])
  | _ :: _ =>
    if T.log_columns = [] then (.error .noLogicalKey, db, [])
    else
      match find_keys_all T (objects.map (logVals T)) db with
      | (.error err, db', effs) => (.error err, db', effs)
      | (.ok oidsList, db', effs) =>
        let results := (oidsList.zip objects).map (fun p =>
          match p.1 with
          | none => (p.2, false)
          | some kv => attachValsLoop (T.key_columns.zip kv) p.2 false)
        (.ok (results.map Prod.fst, results.map Prod.snd), db', effs)

/-- `SessionExtensions.insert_ignore` on a single entity
(session_extension.py:307-357).  `obj = none` models a falsy argument
(`if not obj: return obj`).  The existence check is
`select(cls).where(*_eq_filter(obj._key_columns, obj._key_vals))` followed by
`return self.scalars(stmt).one_or_none()` — `one_or_none` yields `None` on
zero rows rather than raising `NoResultFound`, so the `except NoResultFound`
handler never fires and the subsequent `self.add(obj)` /
`_commit_flush_refresh` / `_handle_relationships` tail is unreachable: the
function returns the query result unconditionally. -/
def insert_ignore (T : EntityType) (obj : Option Entity)
    (commit flush refresh : Bool) (db : DB) :
    Except Err (Option Entity) × DB × List Eff :=
  match obj with
  | none => (.ok none, db, [])
  | some e =>
    let matched := db.filter (fun r => decide (keyVals T r = keyVals T e))
    match one_or_none matched with
    | .error err => (.error err, db, [.query])
    | .ok v => (.ok v, db, [.query])

/-- `SessionExtensions.insert_ignore_all` (session_extension.py:247-305) for a
type with no declared relationships (`_rel_columns` empty, so the
`_handle_relationships` tail is skipped; the cascading recursion is modelled
separately by `cascadeVisit` below).  One `IN` query over the key tuples,
`add_all` of the unmatched objects, optional commit/flush/refresh, returning
the input objects. -/
def insert_ignore_all (T : EntityType) (objects : List Entity)
    (commit flush refresh : Bool) (db : DB) :
    Except Err (List Entity) × DB × List Eff :=
  match objects with
  | [] => (.ok [], db, [])
  | _ :: _ =>
    let keyTuples := objects.map (keyVals T)
    let db_ids_key_vals :=
      (db.filter (fun r => keyTuples.any (fun t => sqlTupleEq (keyVals T r) t))).map
        (keyVals T)
    let not_found := objects.filter (fun o => decide (keyVals T o ∉ db_ids_key_vals))
    let effs := [.query] ++ (if not_found.isEmpty then [] else [.add]) ++
      (if commit || flush || refresh then cfrEffs commit flush refresh not_found.length
       else [])
    (.ok objects, db ++ not_found, effs)

/-- `SessionExtensions.lget` (session_extension.py:373-396): fetch one entity
by logical-key values via `_eq_filter`, `NoLogicalKeyException` first. -/
def lget (T : EntityType) (values : List (Option Val)) (db : DB) :
    Except Err (Option Entity) × DB × List Eff :=
  if T.log_columns = [] then (.error .noLogicalKey, db, [])
  else
    let matched := db.filter (fun r => decide (logVals T r = values))
    match one_or_none matched with
    | .error err => (.error err, db, [.query])
    | .ok v => (.ok v, db, [.query])

/-- `SessionExtensions.linsert_ignore` on a single entity
(session_extension.py:467-518) for a type with no declared relationships.
Uses `.one()`, whose `NoResultFound` *is* caught, so a miss falls through to
`self.add(obj)`; a hit returns the stored row (the submitted entity is not
modified).  `_commit_flush_refresh` is invoked unconditionally after an add. -/
def linsert_ignore (T : EntityType) (obj : Option Entity)
    (commit flush refresh : Bool) (db : DB) :
    Except Err (Option Entity) × DB × List Eff :=
  match obj with
  | none => (.ok none, db, [])
  | some e =>
    if T.log_columns = [] then (.error .noLogicalKey, db, [])
    else
      let matched := db.filter (fun r => decide (logVals T r = logVals T e))
      match matched with
      | [r] => (.ok (some r), db, [.query])
      | [] =>
        (.ok (some e), db ++ [e], [.query, .add] ++ cfrEffs commit flush refresh 1)
      | _ => (.error .multipleResults, db, [.query])

/-- `SessionExtensions.linsert_ignore_all` (session_extension.py:398-465) for a
type with no declared relationships.  One `IN` query over the logical tuples,
a dict from logical tuple to key tuple; matched objects get their primary-key
columns overwritten in place (`writeKeys`) and are not re-added, unmatched
objects are passed to `add_all`.  Returns the (mutated) input list. -/
def linsert_ignore_all (T : EntityType) (objects : List Entity)
    (commit flush refresh : Bool) (db : DB) :
    Except Err (List Entity) × DB × List Eff :=
  match objects with
  | [] => (.ok [], db, [])
  | _ :: _ =>
    if T.log_columns = [] then (.error .noLogicalKey, db, [])
    else
      let logTuples := objects.map (logVals T)
      let filtered := db.filter (fun r => logTuples.any (fun t => sqlTupleEq (logVals T r) t))
      let dict := buildDict T filtered
      let res := objects.map (fun o =>
        match lookupA dict (logVals T o) with
        | some kv => writeKeys T o kv
        | none => o)
      let not_found := objects.filter (fun o => (lookupA dict (logVals T o)).isNone)
      let effs := [.query] ++ (if not_found.isEmpty then [] else [.add]) ++
        (if commit || flush || refresh then cfrEffs commit flush refresh not_found.length
         else [])
      (.ok res, db ++ not_found, effs)

/-- Truthiness of the value `linsert_update` receives back from
`attach_keys`: the source's `attach_keys` returns the 2-tuple
`(obj, attached_key)`, and a non-empty Python tuple is always truthy,
whatever the boolean inside it. -/
def pairTruthy (p : Entity × Bool) : Bool :=
  match p with
  | (_, _) => true

/-- `Session.merge` restricted to this table: insert-if-absent /
update-if-present by primary key. -/
def mergeRow (T : EntityType) (e : Entity) (db : DB) : DB :=
  if db.any (fun r => decide (keyVals T r = keyVals T e)) then
    db.map (fun r => if keyVals T r = keyVals T e then e else r)
  else db ++ [e]

/-- `SessionExtensions.linsert_update` (session_extension.py:520-541): when the
primary-key tuple contains a `None`, call `attach_keys` and branch on the
result — but the binding `attached_key = self.attach_keys(obj)` receives the
*pair* `(obj, attached_key)`, so `if attached_key:` tests a non-empty tuple and
always takes the merge branch; `self.add(obj, ...)` is unreachable. -/
def linsert_update (T : EntityType) (e : Entity)
    (load commit flush refresh : Bool) (db : DB) :
    Except Err Entity × DB × List Eff :=
  if (keyVals T e).any (fun v => v.isNone) then
    match attach_keys T e false db with
    | (.error err, db', effs) => (.error err, db', effs)
    | (.ok pair, db', effs) =>
      if pairTruthy pair then
        (.ok pair.1, mergeRow T pair.1 db',
          effs ++ [.merge] ++
            (if commit || flush || refresh then cfrEffs commit flush refresh 0 else []))
      else
        (.ok pair.1, db' ++ [pair.1],
          effs ++ [.add] ++
            (if commit || flush || refresh then cfrEffs commit flush refresh 0 else []))
  else
    (.ok e, mergeRow T e db,
      [.merge] ++
        (if commit || flush || refresh then cfrEffs commit flush refresh 0 else []))

/-- `Relationship(start_col, end_col)` of decl_base.py:24-27: a foreign-key
binding from a parent-side column (`start_col`, the referenced column) to a
child-side column (`end_col`, the referencing attribute).  The values returned
by `Registry.get_relationships` are keyed by the child attribute name, so the
`end_col`s of one binding group are pairwise distinct. -/
structure Binding where
  start_col : String
  end_col : String
  deriving DecidableEq, Repr

/-- The inner loop of `SessionExtensions._handle_relationships`
(session_extension.py:233-236): for one child, write each binding's
parent-side column value into the corresponding child-side column. -/
def applyBindings (parent : Entity) (bs : List Binding) (child : Entity) : Entity :=
  bs.foldl (fun c b => setattr c b.end_col (getattr parent b.start_col)) child

/-- The batch collected by `_handle_relationships` for one relationship
(session_extension.py:218-237): for every parent (paired with the child
collection read from its relationship attribute; `None`/empty is the empty
list), update every child in place and extend `toinsertobjects`.  The result
is exactly the batch subsequently submitted to `insert_func`
(session_extension.py:239-245). -/
def collectChildren (bs : List Binding) (parents : List (Entity × List Entity)) :
    List Entity :=
  parents.foldl (fun acc p => acc ++ p.2.map (applyBindings p.1 bs)) []

/-- Classes are identified by their registry identity. -/
abbrev ClassId := Nat

/-- The type-level relationship structure an object graph induces:
`rels c` lists the target classes of `c._rel_columns` (in declaration order),
and `hasChildren p c` tells whether the batch of `c`-children collected from
the `p`-parents currently being inserted is non-empty (an empty batch makes
`insert_ignore` return immediately: `if not obj: return obj`). -/
structure Schema where
  rels : ClassId → List ClassId
  hasChildren : ClassId → ClassId → Bool

/-- `classes_seen.add c`: Python set insertion. -/
def insertSeen (c : ClassId) (s : List ClassId) : List ClassId :=
  if c ∈ s then s else c :: s

/-- The loop of `_handle_relationships` (session_extension.py:211-245) at type
granularity, parameterised by the recursive insert (`self`): for each
relationship target `r`, skip it when it is already in `classes_seen`
(`if rclass in classes_seen: continue`), otherwise add it
(`classes_seen.add(rclass)`) and submit the collected child batch to
`insert_func` — which recurses only when the batch is non-empty.  Returns the
trace of classes whose insert body ran, and the final `classes_seen`. -/
def visitRels (self : ClassId → List ClassId → List ClassId × List ClassId)
    (gate : ClassId → Bool) :
    List ClassId → List ClassId → List ClassId × List ClassId
  | [], sn => ([], sn)
  | r :: rs, sn =>
    if r ∈ sn then visitRels self gate rs sn
    else
      let sn1 := insertSeen r sn
      if gate r then
        let p1 := self r sn1
        let p2 := visitRels self gate rs p1.2
        (p1.1 ++ p2.1, p2.2)
      else visitRels self gate rs sn1

/-- `insert_ignore_all`'s recursion at type granularity
(session_extension.py:247-305): run the insert body for `cls` (recorded in the
trace), and when `cls._rel_columns` is non-empty, add `cls` itself to
`classes_seen` (line 295) and hand the relationship targets to
`_handle_relationships` with the *same* `classes_seen` set.  `fuel` bounds the
recursion depth; the Python recursion terminates because `classes_seen` only
grows, so any `fuel` larger than the number of classes is exact. -/
def cascadeVisit (sch : Schema) : Nat → ClassId → List ClassId →
    List ClassId × List ClassId
  | 0, _, seen => ([], seen)
  | fuel + 1, cls, seen =>
    let rels := sch.rels cls
    if rels.isEmpty then ([cls], seen)
    else
      let seen1 := insertSeen cls seen
      let p := visitRels (fun c s => cascadeVisit sch fuel c s)
        (fun r => sch.hasChildren cls r) rels seen1
      (cls :: p.1, p.2)

/-! ### Concrete fixtures used by witnesses and counterexamples

`exT` mirrors the test schema `TClass` of tests/unit_tests (an integer primary
key `id` and a logical key `name`); `exT0` declares no logical key. -/

/-- A type with primary key `id` and logical key `name`. -/
def exT : EntityType := ⟨["id"], ["name"]⟩

/-- A type with primary key `id` and no logical-key columns. -/
def exT0 : EntityType := ⟨["id"], []⟩

/-- A fresh entity with a fully-specified primary key, absent from storage. -/
def exNew : Entity := [("id", some 1), ("name", some 1)]

/-- An entity with an unset primary key and a logical value absent from
storage. -/
def exUnmatched : Entity := [("id", none), ("name", some 5)]

/-- An entity that already holds a non-null primary-key value. -/
def exKeyed : Entity := [("id", some 7), ("name", some 1)]

/-- A stored row with primary key 3 and logical value 1. -/
def exRow : Entity := [("id", some 3), ("name", some 1)]

/-- An entity with an unset primary key whose logical value matches `exRowD`,
but whose non-key column `data` differs from it. -/
def exPending : Entity := [("id", none), ("name", some 1), ("data", some 9)]

/-- A stored row matching `exPending` on the logical key with different
non-key data. -/
def exRowD : Entity := [("id", some 3), ("name", some 1), ("data", some 4)]

/-- A storage state holding the single row `(id 1, name 1)`. -/
def exDb1 : DB := [[("id", some 1), ("name", some 1)]]

/-- An entity whose primary key matches the row stored in `exDb1`. -/
def exDup : Entity := [("id", some 1), ("name", some 2)]

/-- A storage state holding the single row `(id 10, name 1)`. -/
def exDb10 : DB := [[("id", some 10), ("name", some 1)]]

/-- The foreign-key binding group from a parent's `id` column to a child's
`parent_id` column (the `TParent`/`TChild` schema of the tests). -/
def exBindings : List Binding := [⟨"id", "parent_id"⟩]

/-- A parent entity with primary key 1. -/
def exParent : Entity := [("id", some 1)]

/-- A child entity whose foreign-key column is still unset. -/
def exChild : Entity := [("name", some 5)]

/-- A diamond-shaped relationship graph: class 0 relates to classes 1 and 2,
both of which relate to class 3; every relationship attribute is populated. -/
def exSchema : Schema :=
  ⟨fun c => if c = 0 then [1, 2] else if c = 1 then [3] else if c = 2 then [3] else [],
   fun _ _ => true⟩

theorem getattr_setattr_same (e : Entity) (c : String) (v : Option Val) :
    getattr (setattr e c v) c = v := by
  induction e with
  | nil => simp [setattr, getattr]
  | cons p rest ih =>
    by_cases h : p.1 = c
    · simp [setattr, h, getattr]
    · simp only [setattr]
      rw [if_neg h]
      simpa [getattr, h] using ih

theorem getattr_setattr_other (e : Entity) (c c' : String) (v : Option Val)
    (h : c' ≠ c) : getattr (setattr e c v) c' = getattr e c' := by
  induction e with
  | nil => simp [setattr, getattr, Ne.symm h]
  | cons p rest ih =>
    by_cases hp : p.1 = c
    · subst hp
      simp [setattr, getattr, Ne.symm h]
    · simp only [setattr]
      rw [if_neg hp]
      by_cases hp' : p.1 = c'
      · simp [getattr, hp']
      · simpa [getattr, hp'] using ih

theorem sqlTupleEq_eq {xs ys : List (Option Val)} (h : sqlTupleEq xs ys = true) :
    xs = ys := by
  induction xs generalizing ys with
  | nil =>
    cases ys with
    | nil => rfl
    | cons y ys => simp [sqlTupleEq] at h
  | cons x xs ih =>
    cases ys with
    | nil => simp [sqlTupleEq] at h
    | cons y ys =>
      simp only [sqlTupleEq, List.length_cons, List.zip_cons_cons, List.all_cons,
        Bool.and_eq_true, beq_iff_eq, Nat.add_right_cancel_iff] at h
      obtain ⟨hlen, hx, hrest⟩ := h
      match x, y, hx with
      | some a, some b, hx =>
        have hab : a = b := by simpa using hx
        have : xs = ys := ih (by simp [sqlTupleEq, hlen, hrest])
        simp [hab, this]

theorem sqlTupleEq_allSome {xs ys : List (Option Val)}
    (h : sqlTupleEq xs ys = true) : ∀ v ∈ xs, v ≠ none := by
  induction xs generalizing ys with
  | nil => simp
  | cons x xs ih =>
    cases ys with
    | nil => simp [sqlTupleEq] at h
    | cons y ys =>
      simp only [sqlTupleEq, List.length_cons, List.zip_cons_cons, List.all_cons,
        Bool.and_eq_true, beq_iff_eq, Nat.add_right_cancel_iff] at h
      obtain ⟨hlen, hx, hrest⟩ := h
      intro v hv
      rcases List.mem_cons.mp hv with rfl | hv
      · cases v with
        | none => cases y <;> simp at hx
        | some a => simp
      · exact ih (show sqlTupleEq xs ys = true by simp [sqlTupleEq, hlen, hrest]) v hv

theorem sqlTupleEq_self {xs : List (Option Val)} (h : ∀ v ∈ xs, v ≠ none) :
    sqlTupleEq xs xs = true := by
  induction xs with
  | nil => simp [sqlTupleEq]
  | cons x xs ih =>
    have hx : x ≠ none := h x (by simp)
    match x, hx with
    | some a, _ =>
      have := ih (fun v hv => h v (by simp [hv]))
      simp only [sqlTupleEq, Bool.and_eq_true, beq_iff_eq] at this ⊢
      simpa using this.2

theorem lookupA_updateA_same (m : List (List (Option Val) × List (Option Val)))
    (k : List (Option Val)) (v : List (Option Val)) :
    lookupA (updateA m k v) k = some v := by
  induction m with
  | nil => simp [updateA, lookupA]
  | cons p rest ih =>
    by_cases h : p.1 = k
    · simp [updateA, h, lookupA]
    · simp only [updateA]
      rw [if_neg h]
      simpa [lookupA, h] using ih

theorem lookupA_updateA_other (m : List (List (Option Val) × List (Option Val)))
    (k k' : List (Option Val)) (v : List (Option Val)) (h : k' ≠ k) :
    lookupA (updateA m k v) k' = lookupA m k' := by
  induction m with
  | nil => simp [updateA, lookupA, Ne.symm h]
  | cons p rest ih =>
    by_cases hp : p.1 = k
    · subst hp
      simp [updateA, lookupA, Ne.symm h]
    · simp only [updateA]
      rw [if_neg hp]
      by_cases hp' : p.1 = k'
      · simp [lookupA, hp']
      · simpa [lookupA, hp'] using ih

theorem lookupA_foldl_none_iff (T : EntityType) (rows : List Entity)
    (m : List (List (Option Val) × List (Option Val))) (lv : List (Option Val)) :
    lookupA (rows.foldl (fun m r => updateA m (logVals T r) (keyVals T r)) m) lv
      = none ↔ (lookupA m lv = none ∧ ∀ r ∈ rows, logVals T r ≠ lv) := by
  induction rows generalizing m with
  | nil => simp
  | cons r rows ih =>
    simp only [List.foldl_cons, List.mem_cons]
    rw [ih]
    by_cases h : logVals T r = lv
    · subst h
      simp [lookupA_updateA_same]
    · rw [lookupA_updateA_other _ _ _ _ (Ne.symm h)]
      constructor
      · rintro ⟨h1, h2⟩
        exact ⟨h1, fun x hx => hx.elim (fun e => e ▸ h) (h2 x)⟩
      · rintro ⟨h1, h2⟩
        exact ⟨h1, fun x hx => h2 x (Or.inr hx)⟩

theorem lookupA_foldl_some (T : EntityType) (rows : List Entity)
    (m : List (List (Option Val) × List (Option Val))) (lv kv : List (Option Val))
    (h : lookupA (rows.foldl (fun m r => updateA m (logVals T r) (keyVals T r)) m) lv
      = some kv) :
    lookupA m lv = some kv ∨ ∃ r ∈ rows, logVals T r = lv ∧ keyVals T r = kv := by
  induction rows generalizing m with
  | nil => exact Or.inl h
  | cons r rows ih =>
    simp only [List.foldl_cons] at h
    rcases ih _ h with h' | ⟨r', hr', h1, h2⟩
    · by_cases he : logVals T r = lv
      · subst he
        have hkv : keyVals T r = kv := by
          rw [lookupA_updateA_same] at h'
          exact Option.some.inj h'
        exact Or.inr ⟨r, by simp, rfl, hkv⟩
      · rw [lookupA_updateA_other _ _ _ _ (Ne.symm he)] at h'
        exact Or.inl h'
    · exact Or.inr ⟨r', by simp [hr'], h1, h2⟩

theorem lookupA_buildDict_none_iff (T : EntityType) (rows : List Entity)
    (lv : List (Option Val)) :
    lookupA (buildDict T rows) lv = none ↔ ∀ r ∈ rows, logVals T r ≠ lv := by
  rw [buildDict, lookupA_foldl_none_iff]
  simp [lookupA]

theorem lookupA_buildDict_some (T : EntityType) (rows : List Entity)
    (lv kv : List (Option Val)) (h : lookupA (buildDict T rows) lv = some kv) :
    ∃ r ∈ rows, logVals T r = lv ∧ keyVals T r = kv := by
  rcases lookupA_foldl_some T rows [] lv kv h with h' | h'
  · simp [lookupA] at h'
  · exact h'

theorem mem_insertSeen {t c : ClassId} {s : List ClassId} :
    t ∈ insertSeen c s ↔ t = c ∨ t ∈ s := by
  by_cases h : c ∈ s
  · simp only [insertSeen, if_pos h]
    constructor
    · exact Or.inr
    · rintro (rfl | ht)
      · exact h
      · exact ht
  · simp [insertSeen, if_neg h]

theorem subset_insertSeen {c : ClassId} {s : List ClassId} : s ⊆ insertSeen c s :=
  fun _ ht => mem_insertSeen.mpr (Or.inr ht)

theorem self_mem_insertSeen {c : ClassId} {s : List ClassId} : c ∈ insertSeen c s :=
  mem_insertSeen.mpr (Or.inl rfl)

theorem insertSeen_of_mem {c : ClassId} {s : List ClassId} (h : c ∈ s) :
    insertSeen c s = s := by
  simp [insertSeen, if_pos h]

/-- Invariant of the `_handle_relationships` loop: assuming the recursive
insert (`self`) satisfies the `cascadeVisit` invariant, the loop only ever
runs the insert body for classes that were not yet in `classes_seen`, its
trace is duplicate-free, and every traced class ends up in `classes_seen`. -/
theorem visitRels_inv (self : ClassId → List ClassId → List ClassId × List ClassId)
    (gate : ClassId → Bool)
    (hself : ∀ c s tr sn, self c s = (tr, sn) →
      s ⊆ sn ∧ tr.Nodup ∧ ∀ t ∈ tr, (t = c ∨ t ∉ s) ∧ t ∈ insertSeen c sn) :
    ∀ (rs : List ClassId) (sn0 tr sn : List ClassId),
      visitRels self gate rs sn0 = (tr, sn) →
      sn0 ⊆ sn ∧ tr.Nodup ∧ ∀ t ∈ tr, t ∉ sn0 ∧ t ∈ sn := by
  intro rs
  induction rs with
  | nil =>
    intro sn0 tr sn h
    simp only [visitRels] at h
    obtain ⟨rfl, rfl⟩ := Prod.mk.injEq .. ▸ h
    exact ⟨List.Subset.refl _, List.nodup_nil, by simp⟩
  | cons r rs ih =>
    intro sn0 tr sn h
    simp only [visitRels] at h
    by_cases hr : r ∈ sn0
    · rw [if_pos hr] at h
      exact ih sn0 tr sn h
    · rw [if_neg hr] at h
      by_cases hg : gate r = true
      · rw [if_pos hg] at h
        rcases hq1 : self r (insertSeen r sn0) with ⟨tr1, sn2⟩
        rw [hq1] at h
        dsimp only at h
        rcases hq2 : visitRels self gate rs sn2 with ⟨tr2, sn3⟩
        rw [hq2] at h
        dsimp only at h
        injection h with ha hb
        subst ha
        subst hb
        obtain ⟨h1sub, h1nd, h1mem⟩ := hself r (insertSeen r sn0) tr1 sn2 hq1
        obtain ⟨h2sub, h2nd, h2mem⟩ := ih sn2 tr2 sn3 hq2
        have hmem1 : ∀ t ∈ tr1, t ∈ sn2 := by
          intro t ht
          have := (h1mem t ht).2
          rwa [insertSeen_of_mem (h1sub self_mem_insertSeen)] at this
        refine ⟨?_, ?_, ?_⟩
        · exact fun t ht => h2sub (h1sub (subset_insertSeen ht))
        · exact h1nd.append h2nd (fun t ht1 ht2 => (h2mem t ht2).1 (hmem1 t ht1))
        · intro t ht
          rcases List.mem_append.mp ht with ht1 | ht2
          · refine ⟨?_, h2sub (hmem1 t ht1)⟩
            rcases (h1mem t ht1).1 with rfl | hns
            · exact hr
            · exact fun hts => hns (subset_insertSeen hts)
          · exact ⟨fun hts => (h2mem t ht2).1 (h1sub (subset_insertSeen hts)),
              (h2mem t ht2).2⟩
      · rw [if_neg hg] at h
        obtain ⟨hsub, hnd, hmem⟩ := ih (insertSeen r sn0) tr sn h
        exact ⟨fun t ht => hsub (subset_insertSeen ht), hnd,
          fun t ht => ⟨fun hts => (hmem t ht).1 (subset_insertSeen hts), (hmem t ht).2⟩⟩

/-- Invariant of the cascading insert: classes whose insert body runs are the
start class or classes newly added to `classes_seen`, the trace is
duplicate-free, and traced classes are in the final set (once the start class
itself is accounted for). -/
theorem cascadeVisit_inv (sch : Schema) :
    ∀ (fuel : Nat) (cls : ClassId) (seen tr sn : List ClassId),
      cascadeVisit sch fuel cls seen = (tr, sn) →
      seen ⊆ sn ∧ tr.Nodup ∧ ∀ t ∈ tr, (t = cls ∨ t ∉ seen) ∧ t ∈ insertSeen cls sn := by
  intro fuel
  induction fuel with
  | zero =>
    intro cls seen tr sn h
    simp only [cascadeVisit] at h
    injection h with ha hb
    subst ha
    subst hb
    exact ⟨List.Subset.refl _, List.nodup_nil, by simp⟩
  | succ fuel ih =>
    intro cls seen tr sn h
    simp only [cascadeVisit] at h
    by_cases he : (sch.rels cls).isEmpty
    · rw [if_pos he] at h
      injection h with ha hb
      subst ha
      subst hb
      exact ⟨List.Subset.refl _, List.nodup_singleton _,
        fun t ht => by
          rcases List.mem_singleton.mp ht with rfl
          exact ⟨Or.inl rfl, self_mem_insertSeen⟩⟩
    · rw [if_neg he] at h
      rcases hq : visitRels (fun c s => cascadeVisit sch fuel c s)
          (fun r => sch.hasChildren cls r) (sch.rels cls) (insertSeen cls seen)
        with ⟨tr0, sn0⟩
      rw [hq] at h
      dsimp only at h
      injection h with ha hb
      subst ha
      subst hb
      obtain ⟨hsub, hnd, hmem⟩ := visitRels_inv _ _
        (fun c s tr' sn' hcall => ih c s tr' sn' hcall) _ _ _ _ hq
      refine ⟨fun t ht => hsub (subset_insertSeen ht), ?_, ?_⟩
      · refine List.nodup_cons.mpr ⟨?_, hnd⟩
        exact fun hcls => (hmem cls hcls).1 self_mem_insertSeen
      · intro t ht
        rcases List.mem_cons.mp ht with rfl | ht0
        · exact ⟨Or.inl rfl, self_mem_insertSeen⟩
        · refine ⟨Or.inr fun hts => (hmem t ht0).1 (subset_insertSeen hts),
            subset_insertSeen (hmem t ht0).2⟩

theorem applyBindings_cons (parent : Entity) (b : Binding) (bs : List Binding)
    (child : Entity) :
    applyBindings parent (b :: bs) child
      = applyBindings parent bs (setattr child b.end_col (getattr parent b.start_col)) :=
  rfl

theorem applyBindings_getattr_untouched (parent child : Entity) (bs : List Binding)
    (c : String) (hc : c ∉ bs.map Binding.end_col) :
    getattr (applyBindings parent bs child) c = getattr child c := by
  induction bs generalizing child with
  | nil => rfl
  | cons b bs ih =>
    simp only [List.map_cons, List.mem_cons, not_or] at hc
    rw [applyBindings_cons, ih _ hc.2, getattr_setattr_other _ _ _ _ hc.1]

theorem applyBindings_getattr (parent child : Entity) (bs : List Binding)
    (hnd : (bs.map Binding.end_col).Nodup) :
    ∀ b ∈ bs, getattr (applyBindings parent bs child) b.end_col
      = getattr parent b.start_col := by
  induction bs generalizing child with
  | nil => simp
  | cons b0 bs ih =>
    simp only [List.map_cons, List.nodup_cons] at hnd
    intro b hb
    rcases List.mem_cons.mp hb with rfl | hb
    · rw [applyBindings_cons, applyBindings_getattr_untouched _ _ _ _ hnd.1,
        getattr_setattr_same]
    · rw [applyBindings_cons]
      exact ih (setattr child b0.end_col (getattr parent b0.start_col)) hnd.2 b hb

theorem mem_collectChildren_aux (bs : List Binding)
    (parents : List (Entity × List Entity)) (acc : List Entity) (x : Entity) :
    x ∈ parents.foldl (fun acc p => acc ++ p.2.map (applyBindings p.1 bs)) acc ↔
      x ∈ acc ∨ ∃ p ∈ parents, ∃ k ∈ p.2, x = applyBindings p.1 bs k := by
  induction parents generalizing acc with
  | nil => simp
  | cons q parents ih =>
    simp only [List.foldl_cons]
    rw [ih]
    constructor
    · rintro (hx | hx)
      · rcases List.mem_append.mp hx with hx | hx
        · exact Or.inl hx
        · obtain ⟨k, hk, rfl⟩ := List.mem_map.mp hx
          exact Or.inr ⟨q, by simp, k, hk, rfl⟩
      · obtain ⟨p, hp, k, hk, rfl⟩ := hx
        exact Or.inr ⟨p, by simp [hp], k, hk, rfl⟩
    · rintro (hx | ⟨p, hp, k, hk, rfl⟩)
      · exact Or.inl (List.mem_append.mpr (Or.inl hx))
      · rcases List.mem_cons.mp hp with rfl | hp
        · exact Or.inl (List.mem_append.mpr (Or.inr (List.mem_map.mpr ⟨k, hk, rfl⟩)))
        · exact Or.inr ⟨p, hp, k, hk, rfl⟩

theorem mem_collectChildren (bs : List Binding)
    (parents : List (Entity × List Entity)) (p : Entity × List Entity)
    (hp : p ∈ parents) (k : Entity) (hk : k ∈ p.2) :
    applyBindings p.1 bs k ∈ collectChildren bs parents := by
  rw [collectChildren, mem_collectChildren_aux]
  exact Or.inr ⟨p, hp, k, hk, rfl⟩

/-- Semantics of the dict lookup over the rows returned by one batched `IN`
query: for an input tuple `lv` of the batch, the lookup misses exactly when no
stored row SQL-matches `lv`, and a hit returns the primary-key tuple of a
stored row that SQL-matches `lv`. -/
theorem lookup_filtered_dict (T : EntityType) (db : DB)
    (tuples : List (List (Option Val))) (lv : List (Option Val))
    (hlv : lv ∈ tuples) :
    (lookupA (buildDict T
        (db.filter (fun r => tuples.any (fun t => sqlTupleEq (logVals T r) t)))) lv
        = none ↔ ∀ row ∈ db, sqlTupleEq (logVals T row) lv = false) ∧
    (∀ kv, lookupA (buildDict T
        (db.filter (fun r => tuples.any (fun t => sqlTupleEq (logVals T r) t)))) lv
        = some kv → ∃ row ∈ db, sqlTupleEq (logVals T row) lv = true ∧
          keyVals T row = kv) := by
  constructor
  · rw [lookupA_buildDict_none_iff]
    constructor
    · intro hall row hrow
      by_contra hne
      have htrue : sqlTupleEq (logVals T row) lv = true := by
        revert hne
        cases sqlTupleEq (logVals T row) lv <;> simp
      have hfil : row ∈ db.filter (fun r => tuples.any (fun t => sqlTupleEq (logVals T r) t)) := by
        rw [List.mem_filter]
        exact ⟨hrow, List.any_eq_true.mpr ⟨lv, hlv, htrue⟩⟩
      exact hall row hfil (sqlTupleEq_eq htrue)
    · intro hall r hr
      rw [List.mem_filter] at hr
      obtain ⟨hrdb, hrany⟩ := hr
      obtain ⟨t, _, ht⟩ := List.any_eq_true.mp hrany
      intro hlveq
      have hself : sqlTupleEq (logVals T r) lv = true := by
        rw [hlveq] at ht ⊢
        exact sqlTupleEq_self (sqlTupleEq_allSome ht)
      have := hall r hrdb
      rw [hself] at this
      exact Bool.true_eq_false.mp this
  · intro kv hkv
    obtain ⟨r, hr, hlveq, hkveq⟩ := lookupA_buildDict_some _ _ _ _ hkv
    rw [List.mem_filter] at hr
    obtain ⟨hrdb, hrany⟩ := hr
    obtain ⟨t, _, ht⟩ := List.any_eq_true.mp hrany
    refine ⟨r, hrdb, ?_, hkveq⟩
    rw [← hlveq]
    exact sqlTupleEq_self (sqlTupleEq_allSome ht)

/-! ### Claim theorems -/

/-- C1: Refuted on the code — for a single entity whose primary-key values
match no stored row, `insert_ignore` does NOT insert: the existence check ends
with `.one_or_none()`, which returns `None` on zero rows instead of raising
`NoResultFound`, and `insert_ignore` returns that `None` directly, leaving
storage untouched (the `self.add(obj)` tail is unreachable).  Evaluated here
at the failing input: a fresh entity `(id 1, name 1)` against empty storage
yields result `None`, unchanged storage, and only the existence query. -/
theorem insert_ignore_miss_returns_none_no_insert :
    insert_ignore exT (some exNew) false false false []
      = (.ok none, [], [.query]) := by
  rfl

/-- C2: Refuted on the code — `attach_keys` returns the tuple
`(obj, attached_key)` (despite its `-> bool` annotation), and
`linsert_update`'s `if attached_key:` tests that tuple, which is always
truthy.  At the failing input (primary key unset, logical value `5` absent
from storage) `attach_keys` reports `attached = false`, yet `linsert_update`
still merges instead of adding the entity as new. -/
theorem linsert_update_merges_despite_unattached_key :
    attach_keys exT exUnmatched false [] = (.ok (exUnmatched, false), [], [.query]) ∧
    linsert_update exT exUnmatched true false false false []
      = (.ok exUnmatched, [exUnmatched], [.query, .merge]) :=
  ⟨rfl, rfl⟩

/-- C5: During a cascading insert, every child of every parent in the batch is
collected with each foreign-key binding's parent-side column value written
into the corresponding child-side column, and exactly these updated children
form the batch handed to `insert_func`.  (`end_col`s of one binding group are
pairwise distinct since `Registry._fk_referred_from[table][cls]` is keyed by
the child attribute name.) -/
theorem handle_relationships_syncs_fk_before_insert (bs : List Binding)
    (parents : List (Entity × List Entity))
    (hnd : (bs.map Binding.end_col).Nodup) :
    ∀ p ∈ parents, ∀ k ∈ p.2,
      applyBindings p.1 bs k ∈ collectChildren bs parents ∧
      ∀ b ∈ bs, getattr (applyBindings p.1 bs k) b.end_col
        = getattr p.1 b.start_col :=
  fun p hp k hk =>
    ⟨mem_collectChildren bs parents p hp k hk, applyBindings_getattr p.1 k bs hnd⟩

/-- Witness for C5 on the `TParent`/`TChild` schema: the child collected for
insertion carries `parent_id = 1`, copied from its parent's `id`. -/
theorem handle_relationships_syncs_fk_witness :
    applyBindings exParent exBindings exChild
        ∈ collectChildren exBindings [(exParent, [exChild])] ∧
    getattr (applyBindings exParent exBindings exChild) "parent_id"
        = getattr exParent "id" := by
  have h := handle_relationships_syncs_fk_before_insert exBindings
    [(exParent, [exChild])] (by decide) (exParent, [exChild]) (by decide)
    exChild (by decide)
  exact ⟨h.1, h.2 ⟨"id", "parent_id"⟩ (by decide)⟩

/-- C6: Within one top-level cascading call, every relationship target type is
processed by the insert function at most once — the trace of classes whose
insert body runs is duplicate-free, because one `classes_seen` set is threaded
through the entire recursion. -/
theorem cascade_processes_each_type_at_most_once (sch : Schema) (fuel : Nat)
    (cls : ClassId) (seen tr sn : List ClassId)
    (h : cascadeVisit sch fuel cls seen = (tr, sn)) : tr.Nodup :=
  (cascadeVisit_inv sch fuel cls seen tr sn h).2.1

/-- Witness for C6 on the diamond schema (0 → 1 → 3, 0 → 2 → 3): class 3 is
reachable through both 1 and 2 yet is processed once — the trace is
`[0, 1, 3, 2]`, duplicate-free. -/
theorem cascade_processes_each_type_at_most_once_witness :
    ([0, 1, 3, 2] : List ClassId).Nodup :=
  cascade_processes_each_type_at_most_once exSchema 4 0 [] [0, 1, 3, 2]
    [2, 3, 1, 0] (by decide)

/-- C7: `insert_ignore` is idempotent for an entity with a fully-specified
primary key: the second call returns the same result as the first and the
stored row count after the second call equals the count after the first.
(Because of the `one_or_none` slip recorded under C1, a miss inserts nothing
on either call, so in the not-found case both calls return `None`; in the
found case both calls return the stored row.) -/
theorem insert_ignore_idempotent (T : EntityType) (e : Entity) (db db1 : DB)
    (res : Option Entity) (effs : List Eff)
    (hk : ∀ v ∈ keyVals T e, v ≠ none)
    (h1 : insert_ignore T (some e) false false false db = (.ok res, db1, effs)) :
    insert_ignore T (some e) false false false db1 = (.ok res, db1, effs) ∧
    db1.length = db.length := by
  simp only [insert_ignore] at h1 ⊢
  cases hm : one_or_none (db.filter (fun r => decide (keyVals T r = keyVals T e))) with
  | error err =>
    rw [hm] at h1
    simp at h1
  | ok v =>
    rw [hm] at h1
    simp only [Prod.mk.injEq] at h1
    obtain ⟨hv, hdb, heffs⟩ := h1
    injection hv with hv
    subst hv
    subst hdb
    subst heffs
    rw [hm]
    exact ⟨rfl, rfl⟩

/-- C9: For a type whose logical-key column set is empty, every logical-key
based operation raises `NoLogicalKeyException` before touching storage: the
error is returned with unchanged storage and an empty effect list. -/
theorem no_logical_key_fails_before_storage (T : EntityType)
    (lv : List (Option Val)) (lvs : List (List (Option Val))) (e o : Entity)
    (objs : List Entity) (allow c f r : Bool) (db : DB)
    (hT : T.log_columns = []) :
    find_keys T lv db = (.error .noLogicalKey, db, []) ∧
    find_keys_all T lvs db = (.error .noLogicalKey, db, []) ∧
    attach_keys T e allow db = (.error .noLogicalKey, db, []) ∧
    lget T lv db = (.error .noLogicalKey, db, []) ∧
    linsert_ignore T (some e) c f r db = (.error .noLogicalKey, db, []) ∧
    linsert_ignore_all T (o :: objs) c f r db = (.error .noLogicalKey, db, []) := by
  refine ⟨?_, ?_, ?_, ?_, ?_, ?_⟩ <;>
    simp [find_keys, find_keys_all, attach_keys, lget, linsert_ignore,
      linsert_ignore_all, hT]

/-- Witness for C9 at the concrete no-logical-key type `exT0`. -/
theorem no_logical_key_fails_before_storage_witness :
    find_keys exT0 [some 1] [] = (.error .noLogicalKey, [], []) ∧
    find_keys_all exT0 [[some 1]] [] = (.error .noLogicalKey, [], []) ∧
    attach_keys exT0 exNew false [] = (.error .noLogicalKey, [], []) ∧
    lget exT0 [some 1] [] = (.error .noLogicalKey, [], []) ∧
    linsert_ignore exT0 (some exNew) false false false []
      = (.error .noLogicalKey, [], []) ∧
    linsert_ignore_all exT0 [exNew] false false false []
      = (.error .noLogicalKey, [], []) :=
  no_logical_key_fails_before_storage exT0 [some 1] [[some 1]] exNew exNew []
    false false false false [] rfl

/-- C10: A falsy input — a `None` entity or an empty batch — is returned
unchanged by `insert_ignore`, `insert_ignore_all`, `linsert_ignore` and
`linsert_ignore_all`, with storage untouched and no query, add, commit, flush
or refresh performed. -/
theorem falsy_input_is_noop (T : EntityType) (c f r : Bool) (db : DB) :
    insert_ignore T none c f r db = (.ok none, db, []) ∧
    insert_ignore_all T [] c f r db = (.ok [], db, []) ∧
    linsert_ignore T none c f r db = (.ok none, db, []) ∧
    linsert_ignore_all T [] c f r db = (.ok [], db, []) :=
  ⟨rfl, rfl, rfl, rfl⟩

/-- Witness for C7: re-submitting the already-stored key `id = 1` returns the
stored row both times and leaves the row count unchanged. -/
theorem insert_ignore_idempotent_witness :
    insert_ignore exT (some exDup) false false false exDb1
      = (.ok (some [("id", some 1), ("name", some 1)]), exDb1, [.query]) ∧
    exDb1.length = exDb1.length :=
  insert_ignore_idempotent exT exDup exDb1 exDb1
    (some [("id", some 1), ("name", some 1)]) [.query] (by decide) (by rfl)

/-- C3 counterexample: `attach_keys_all` never consults `allow_id_overwrite`.
The entity already holds the non-null primary key `id = 7`, yet the batched
call succeeds (no invariant-violation error) and overwrites `id` with the
resolved stored value `3`. -/
theorem attach_keys_all_has_no_overwrite_guard :
    getattr exKeyed "id" = some 7 ∧
    attach_keys_all exT [exKeyed] false [exRow]
      = (.ok ([[("id", some 3), ("name", some 1)]], [true]), [exRow], [.query]) :=
  ⟨rfl, rfl⟩

/-- C3 amended: the single-entity `attach_keys` with `allow_id_overwrite`
false fails with the invariant-violation error, before writing any key value
onto the entity (the guard fires on the first primary-key column, so the
`attachLoop` state is still the unmodified entity); `attach_keys_all`,
however, performs no such guard (see the counterexample). -/
theorem attach_keys_guard_fails_before_any_write (T : EntityType) (e : Entity)
    (db : DB)
    (hkc : T.key_columns ≠ [])
    (hlog : T.log_columns ≠ [])
    (hall : ∀ v ∈ keyVals T e, v ≠ none)
    (hu : (db.filter (fun r => sqlTupleEq (logVals T r) (logVals T e))).length ≤ 1) :
    attach_keys T e false db = (.error .alreadyKeyed, db, [.query]) ∧
    ∀ oids : List (Option Val), oids ≠ [] →
      attachLoop false (T.key_columns.zip oids) e false
        = (e, false, some .alreadyKeyed) := by
  obtain ⟨c0, cs, hc⟩ := List.exists_cons_of_ne_nil hkc
  have hg : (getattr e c0).isSome = true := by
    have hmem : getattr e c0 ∈ keyVals T e := by
      rw [keyVals, hc]
      exact List.mem_map_of_mem _ (List.mem_cons_self _ _)
    exact Option.isSome_iff_ne_none.mpr (hall _ hmem)
  have hloop : ∀ oids : List (Option Val), oids ≠ [] →
      attachLoop false (T.key_columns.zip oids) e false
        = (e, false, some .alreadyKeyed) := by
    intro oids hne
    obtain ⟨o0, os, ho⟩ := List.exists_cons_of_ne_nil hne
    rw [hc, ho]
    simp only [List.zip_cons_cons, attachLoop, Bool.not_false, Bool.true_and, hg,
      if_true]
  refine ⟨?_, hloop⟩
  rcases hfil : db.filter (fun r => sqlTupleEq (logVals T r) (logVals T e))
    with _ | ⟨r1, rest⟩
  · have hfind : find_keys T (logVals T e) db = (.ok none, db, [.query]) := by
      simp only [find_keys]
      rw [if_neg hlog, hfil]
      rfl
    simp only [attach_keys]
    rw [if_neg hlog, hfind]
    have h1 := hloop [none] (by simp)
    simp only [h1]
  · rcases rest with _ | ⟨r2, rest2⟩
    · have hfind : find_keys T (logVals T e) db
          = (.ok (some (keyVals T r1)), db, [.query]) := by
        simp only [find_keys]
        rw [if_neg hlog, hfil]
        rfl
      simp only [attach_keys]
      rw [if_neg hlog, hfind]
      have h1 := hloop (keyVals T r1) (by rw [keyVals, hc]; simp)
      simp only [h1]
    · rw [hfil] at hu
      simp at hu

/-- Witness for C3 at the concrete input: `attach_keys` on the already-keyed
entity fails with the invariant-violation error. -/
theorem attach_keys_guard_witness :
    attach_keys exT exKeyed false [exRow] = (.error .alreadyKeyed, [exRow], [.query]) :=
  (attach_keys_guard_fails_before_any_write exT exKeyed [exRow]
    (by decide) (by decide) (by decide) (by decide)).1

/-- C4 counterexample: the single-entity `linsert_ignore` does NOT overwrite
the submitted entity's primary-key columns on a logical match — it returns
the stored row itself.  The returned entity differs from the submitted entity
with its primary-key columns overwritten (their non-key `data` columns
differ), so no in-place backfill happened. -/
theorem linsert_ignore_single_does_not_backfill :
    linsert_ignore exT (some exPending) false false false [exRowD]
      = (.ok (some exRowD), [exRowD], [.query]) ∧
    exRowD ≠ writeKeys exT exPending (keyVals exT exRowD) :=
  ⟨rfl, by decide⟩

theorem zip_map_self {α β : Type} (l : List α) (f : α → β) :
    l.zip (l.map f) = l.map (fun a => (a, f a)) := by
  induction l with
  | nil => rfl
  | cons a l ih => simp [ih]

/-- C4 amended: in the batch form `linsert_ignore_all`, every entity whose
logical values SQL-match a stored row has its primary-key columns overwritten
in place with the resolved stored values and is not re-added; only entities
with unmatched logical values are added to storage.  (The single-entity form
does not backfill — see the counterexample.) -/
theorem linsert_ignore_all_backfills_matched (T : EntityType)
    (objs : List Entity) (c f r : Bool) (db db' : DB) (res : List Entity)
    (effs : List Eff)
    (hne : objs ≠ []) (hlog : T.log_columns ≠ [])
    (h : linsert_ignore_all T objs c f r db = (.ok res, db', effs)) :
    res.length = objs.length ∧
    (∀ p ∈ objs.zip res,
      ((∃ row ∈ db, sqlTupleEq (logVals T row) (logVals T p.1) = true) →
        ∃ row ∈ db, sqlTupleEq (logVals T row) (logVals T p.1) = true ∧
          p.2 = writeKeys T p.1 (keyVals T row)) ∧
      ((∀ row ∈ db, sqlTupleEq (logVals T row) (logVals T p.1) = false) →
        p.2 = p.1)) ∧
    db' = db ++ objs.filter
      (fun o => !(db.any (fun row => sqlTupleEq (logVals T row) (logVals T o)))) := by
  obtain ⟨o0, os, rfl⟩ := List.exists_cons_of_ne_nil hne
  simp only [linsert_ignore_all] at h
  rw [if_neg hlog] at h
  simp only [Prod.mk.injEq] at h
  obtain ⟨hres, hdb, heffs⟩ := h
  injection hres with hres
  subst hres
  subst hdb
  refine ⟨List.length_map .., ?_, ?_⟩
  · rw [zip_map_self]
    intro p hp
    obtain ⟨o, ho, rfl⟩ := List.mem_map.mp hp
    have hlv : logVals T o ∈ (o0 :: os).map (logVals T) :=
      List.mem_map_of_mem _ ho
    have hd := lookup_filtered_dict T db ((o0 :: os).map (logVals T)) (logVals T o) hlv
    rcases hlk : lookupA
        (buildDict T (db.filter (fun row =>
          (((o0 :: os).map (logVals T)).any (fun t => sqlTupleEq (logVals T row) t)))))
        (logVals T o) with _ | kv
    · constructor
      · rintro ⟨row, hrow, htrue⟩
        have := hd.1.mp hlk row hrow
        rw [htrue] at this
        exact absurd this (by simp)
      · intro _
        simp only [hlk]
    · obtain ⟨row, hrow, htrue, hkv⟩ := hd.2 kv hlk
      constructor
      · intro _
        refine ⟨row, hrow, htrue, ?_⟩
        simp only [hlk, hkv]
      · intro hforall
        have := hforall row hrow
        rw [htrue] at this
        exact absurd this (by simp)
  · congr 1
    refine List.filter_congr ?_
    intro o ho
    have hlv : logVals T o ∈ (o0 :: os).map (logVals T) :=
      List.mem_map_of_mem _ ho
    have hd := lookup_filtered_dict T db ((o0 :: os).map (logVals T)) (logVals T o) hlv
    rcases hlk : lookupA
        (buildDict T (db.filter (fun row =>
          (((o0 :: os).map (logVals T)).any (fun t => sqlTupleEq (logVals T row) t)))))
        (logVals T o) with _ | kv
    · have hfalse := hd.1.mp hlk
      have hany : db.any (fun row => sqlTupleEq (logVals T row) (logVals T o)) = false := by
        cases hca : db.any (fun row => sqlTupleEq (logVals T row) (logVals T o)) with
        | false => rfl
        | true =>
          obtain ⟨row, hrow, htrue⟩ := List.any_eq_true.mp hca
          have := hfalse row hrow
          rw [htrue] at this
          exact absurd this (by simp)
      simp [hany]
    · obtain ⟨row, hrow, htrue, _⟩ := hd.2 kv hlk
      have hany : db.any (fun row => sqlTupleEq (logVals T row) (logVals T o)) = true :=
        List.any_eq_true.mpr ⟨row, hrow, htrue⟩
      simp [hany]

/-- Witness for C4: with one stored row logically matching the one submitted
entity, nothing is added to storage (the matched entity is not re-inserted). -/
theorem linsert_ignore_all_backfills_matched_witness :
    ([exRowD] : DB) = [exRowD] ++ [exPending].filter
      (fun o => !([exRowD].any (fun row => sqlTupleEq (logVals exT row) (logVals exT o)))) :=
  (linsert_ignore_all_backfills_matched exT [exPending] false false false
    [exRowD] [exRowD] [[("id", some 3), ("name", some 1), ("data", some 9)]]
    [.query] (by decide) (by decide) (by rfl)).2.2

/-- C8: `find_keys_all` issues exactly one `IN`-style batched query against
storage (and changes nothing), and returns one result per input in input
order: a position is `None` exactly when no stored row SQL-matches that input
tuple, and otherwise holds the primary-key tuple of a matching stored row. -/
theorem find_keys_all_single_query_ordered (T : EntityType)
    (lvs : List (List (Option Val))) (db db' : DB)
    (out : List (Option (List (Option Val)))) (effs : List Eff)
    (hlog : T.log_columns ≠ [])
    (h : find_keys_all T lvs db = (.ok out, db', effs)) :
    effs = [.query] ∧ db' = db ∧ out.length = lvs.length ∧
    ∀ p ∈ lvs.zip out,
      (p.2 = none ↔ ∀ row ∈ db, sqlTupleEq (logVals T row) p.1 = false) ∧
      (∀ kv, p.2 = some kv →
        ∃ row ∈ db, sqlTupleEq (logVals T row) p.1 = true ∧ keyVals T row = kv) := by
  simp only [find_keys_all] at h
  rw [if_neg hlog] at h
  simp only [Prod.mk.injEq] at h
  obtain ⟨hout, hdb, heffs⟩ := h
  injection hout with hout
  subst hout
  subst hdb
  subst heffs
  refine ⟨rfl, rfl, List.length_map .., ?_⟩
  rw [zip_map_self]
  intro p hp
  obtain ⟨lv, hlv, rfl⟩ := List.mem_map.mp hp
  exact lookup_filtered_dict T db lvs lv hlv

/-- Witness for C8: batch `[name 1, name 2]` against a store holding only
`(id 10, name 1)` — the output is positionwise `[key 10, None]`. -/
theorem find_keys_all_single_query_ordered_witness :
    ([some [some 10], none] : List (Option (List (Option Val)))).length
        = [[some 1], [some 2]].length ∧
    ((none : Option (List (Option Val))) = none ↔
      ∀ row ∈ exDb10, sqlTupleEq (logVals exT row) [some 2] = false) := by
  have h := find_keys_all_single_query_ordered exT [[some 1], [some 2]] exDb10
    exDb10 [some [some 10], none] [.query] (by decide) (by rfl)
  exact ⟨h.2.2.1, (h.2.2.2 ([some 2], none) (by decide)).1⟩
